import Mathlib

/-!
# Verification of the `dnd-rulebook` document-structure pipeline

Shallow embedding of the pure core of the repository:

* `src/utils/geometry.py` — rectangle-overlap predicate `intersects`;
* `src/layout/order.py` — deterministic `heuristic_reading_order`;
* `src/ocr/toc.py` — TOC line parsing, tree construction and page-range
  resolution;
* `src/blocks/assemble.py` — the per-page block assembler;
* `src/utils/normalize.py` — text/title normalization;
* `src/blocks/serialize.py` — block serialization.

Python integers are modelled as `Int` (no overflow), Python floats arising
from exact integer arithmetic and true division as `ℚ`, Python lists as
`List`, `None`-able values as `Option`, and raised exceptions as
`Except PyErr`.  Regular expressions are unfolded into explicit character
scans; character classes `\w`, `\s`, `\d` are modelled at their ASCII
fragment, which covers every input considered here.
-/

namespace DndRulebook

deriving instance DecidableEq for Except

/-- A raised Python exception (only the kinds the embedded code can raise). -/
inductive PyErr where
  | valueError (msg : String)
  | zeroDivisionError
  | nameError (missing : String)
  | attributeError (missing : String)
deriving DecidableEq, Repr

/-! ## `src/utils/geometry.py` -/

/-- A bounding box `[x0, y0, x1, y1]` (`bbox : List[int]` in the source). -/
structure BBox where
  x0 : Int
  y0 : Int
  x1 : Int
  y1 : Int
deriving DecidableEq, Repr, Inhabited

/-- `utils.geometry.intersects(b1, b2, min_overlap)`. -/
def intersects (b1 b2 : BBox) (min_overlap : ℚ) : Bool :=
  let x1 := max b1.x0 b2.x0
  let y1 := max b1.y0 b2.y0
  let x2 := min b1.x1 b2.x1
  let y2 := min b1.y1 b2.y1
  if x2 ≤ x1 ∨ y2 ≤ y1 then false
  else
    let inter := (x2 - x1) * (y2 - y1)
    let area := (b1.x1 - b1.x0) * (b1.y1 - b1.y0)
    decide (((inter : ℚ) / ((max area 1 : Int) : ℚ)) ≥ min_overlap)

/-- Width of the intersection rectangle of `a` and `b`. -/
def interW (a b : BBox) : Int := min a.x1 b.x1 - max a.x0 b.x0

/-- Height of the intersection rectangle of `a` and `b`. -/
def interH (a b : BBox) : Int := min a.y1 b.y1 - max a.y0 b.y0

/-- Area of the intersection rectangle of `a` and `b` (when both extents
are positive). -/
def interArea (a b : BBox) : Int := interW a b * interH a b

/-- Area of a box. -/
def boxArea (a : BBox) : Int := (a.x1 - a.x0) * (a.y1 - a.y0)

theorem interW_le (a b : BBox) : interW a b ≤ a.x1 - a.x0 := by
  unfold interW; omega

theorem interH_le (a b : BBox) : interH a b ≤ a.y1 - a.y0 := by
  unfold interH; omega

theorem interArea_le_boxArea (a b : BBox)
    (hw : 0 < interW a b) (hh : 0 < interH a b) :
    interArea a b ≤ boxArea a := by
  have h1 := interW_le a b
  have h2 := interH_le a b
  unfold interArea boxArea
  exact mul_le_mul h1 h2 (le_of_lt hh) (by omega)

theorem intersects_characterization (a b : BBox) (m : ℚ) :
    intersects a b m = true ↔
      (0 < interW a b ∧ 0 < interH a b ∧
        ((interArea a b : ℚ) / (boxArea a : ℚ)) ≥ m) := by
  unfold intersects
  by_cases hdeg : min a.x1 b.x1 ≤ max a.x0 b.x0 ∨ min a.y1 b.y1 ≤ max a.y0 b.y0
  · simp only [hdeg, if_true]
    constructor
    · intro h; exact absurd h (by simp)
    · rintro ⟨hw, hh, -⟩
      exfalso
      unfold interW at hw
      unfold interH at hh
      omega
  · have hw : 0 < interW a b := by unfold interW; omega
    have hh : 0 < interH a b := by unfold interH; omega
    have harea : 1 ≤ boxArea a := by
      have h1 := interW_le a b
      have h2 := interH_le a b
      unfold boxArea
      have : 1 ≤ (a.x1 - a.x0) * (a.y1 - a.y0) := by
        have hx : 1 ≤ a.x1 - a.x0 := by omega
        have hy : 1 ≤ a.y1 - a.y0 := by omega
        nlinarith
      exact this
    have hmax : max (boxArea a) 1 = boxArea a := max_eq_left harea
    simp only [hdeg, if_false]
    have : (min a.x1 b.x1 - max a.x0 b.x0) * (min a.y1 b.y1 - max a.y0 b.y0)
        = interArea a b := by unfold interArea interW interH; ring
    rw [this]
    have hb : (a.x1 - a.x0) * (a.y1 - a.y0) = boxArea a := by unfold boxArea; ring
    rw [hb, hmax]
    simp [hw, hh]

/-- C3, counterexample.  For the degenerate box `a = b = [0,0,0,0]` (zero
area) and `min_overlap = 1/2 ≤ 1`, `intersects(a, a, 1/2)` is `false`,
refuting the claim's clause that `a = b` is true for any `min_overlap ≤ 1`. -/
theorem intersects_self_degenerate_false :
    intersects ⟨0, 0, 0, 0⟩ ⟨0, 0, 0, 0⟩ (1/2) = false ∧ ((1 : ℚ)/2 ≤ 1) := by
  constructor
  · rfl
  · norm_num

/-- C3 (amended): `intersects a b m` is true iff the intersection rectangle
has positive width and height and (intersection area / area of `a`) ≥ `m`;
it is false whenever there is no positive-area geometric overlap; and for
`a = b` with positive extents it is true for every `min_overlap ≤ 1`. -/
theorem intersects_spec :
    (∀ (a b : BBox) (m : ℚ),
      intersects a b m = true ↔
        (0 < interW a b ∧ 0 < interH a b ∧
          ((interArea a b : ℚ) / (boxArea a : ℚ)) ≥ m))
    ∧ (∀ (a b : BBox) (m : ℚ),
        ¬(0 < interW a b ∧ 0 < interH a b) → intersects a b m = false)
    ∧ (∀ (a : BBox) (m : ℚ),
        0 < a.x1 - a.x0 → 0 < a.y1 - a.y0 → m ≤ 1 →
        intersects a a m = true) := by
  refine ⟨intersects_characterization, ?_, ?_⟩
  · intro a b m h
    rcases Bool.eq_false_or_eq_true (intersects a b m) with ht | hf
    · exact absurd ((intersects_characterization a b m).mp ht)
        (by tauto)
    · exact hf
  · intro a m hx hy hm
    rw [intersects_characterization]
    have hw : interW a a = a.x1 - a.x0 := by unfold interW; omega
    have hh : interH a a = a.y1 - a.y0 := by unfold interH; omega
    have harea : interArea a a = boxArea a := by
      unfold interArea boxArea; rw [hw, hh]
    have hpos : (0 : ℚ) < (boxArea a : ℚ) := by
      have : (0 : Int) < boxArea a := by unfold boxArea; nlinarith
      exact_mod_cast this
    refine ⟨by omega, by omega, ?_⟩
    rw [harea, div_self (ne_of_gt hpos)]
    exact hm

/-- C3, witness: the three parts of `intersects_spec` applied at concrete
boxes. -/
theorem intersects_spec_witness :
    (intersects ⟨0, 0, 10, 10⟩ ⟨0, 0, 10, 10⟩ (1/2) = true
      ↔ (0 < interW ⟨0, 0, 10, 10⟩ ⟨0, 0, 10, 10⟩ ∧
          0 < interH ⟨0, 0, 10, 10⟩ ⟨0, 0, 10, 10⟩ ∧
          ((interArea ⟨0, 0, 10, 10⟩ ⟨0, 0, 10, 10⟩ : ℚ) /
            (boxArea ⟨0, 0, 10, 10⟩ : ℚ)) ≥ 1/2))
    ∧ intersects ⟨0, 0, 1, 1⟩ ⟨5, 5, 6, 6⟩ (3/10) = false
    ∧ intersects ⟨0, 0, 10, 10⟩ ⟨0, 0, 10, 10⟩ (1/2) = true :=
  ⟨intersects_spec.1 ⟨0, 0, 10, 10⟩ ⟨0, 0, 10, 10⟩ (1/2),
   intersects_spec.2.1 ⟨0, 0, 1, 1⟩ ⟨5, 5, 6, 6⟩ (3/10) (by decide),
   intersects_spec.2.2 ⟨0, 0, 10, 10⟩ (1/2) (by decide) (by decide)
     (by norm_num)⟩

/-! ## `src/layout/order.py` — `heuristic_reading_order` -/

/-- Python's builtin `max` over a list of ints; `none` models the
`ValueError` raised on an empty sequence. -/
def pyMaxInts : List Int → Option Int
  | [] => none
  | x :: xs => some (xs.foldl max x)

theorem le_foldl_max (xs : List Int) (x : Int) : x ≤ xs.foldl max x := by
  induction xs generalizing x with
  | nil => exact le_refl x
  | cons y ys ih =>
    calc x ≤ max x y := le_max_left x y
    _ ≤ ys.foldl max (max x y) := ih (max x y)

theorem mem_le_foldl_max (xs : List Int) (x : Int) :
    ∀ y ∈ xs, y ≤ xs.foldl max x := by
  induction xs generalizing x with
  | nil => intro y hy; exact absurd hy (List.not_mem_nil y)
  | cons z zs ih =>
    intro y hy
    rcases List.mem_cons.mp hy with h | h
    · subst h
      calc y ≤ max x y := le_max_right x y
      _ ≤ zs.foldl max (max x y) := le_foldl_max zs (max x y)
    · exact ih (max x z) y h

theorem pyMaxInts_ge (l : List Int) (m : Int) (hm : pyMaxInts l = some m) :
    ∀ y ∈ l, y ≤ m := by
  cases l with
  | nil => simp [pyMaxInts] at hm
  | cons x xs =>
    simp only [pyMaxInts, Option.some.injEq] at hm
    subst hm
    intro y hy
    rcases List.mem_cons.mp hy with h | h
    · subst h; exact le_foldl_max xs y
    · exact mem_le_foldl_max xs x y h

/-- Stable insertion used by `pySort`: `x` goes after every element strictly
before it under `lt`, and before every element it ties with. -/
def insertStable (lt : α → α → Bool) (x : α) : List α → List α
  | [] => [x]
  | y :: ys => if lt y x then y :: insertStable lt x ys else x :: y :: ys

/-- Python's stable `list.sort` (the unique stable sort, realized as a
stable insertion sort). -/
def pySort (lt : α → α → Bool) (l : List α) : List α :=
  l.foldr (insertStable lt) []

theorem insertStable_perm (lt : α → α → Bool) (x : α) (l : List α) :
    (insertStable lt x l).Perm (x :: l) := by
  induction l with
  | nil => exact List.Perm.refl _
  | cons y ys ih =>
    unfold insertStable
    by_cases h : lt y x = true
    · simp only [h, if_true]
      exact (List.Perm.cons y ih).trans (List.Perm.swap x y ys)
    · simp only [h, if_false]
      exact List.Perm.refl _

theorem pySort_perm (lt : α → α → Bool) (l : List α) :
    (pySort lt l).Perm l := by
  induction l with
  | nil => exact List.Perm.refl _
  | cons x xs ih =>
    exact (insertStable_perm lt x (pySort lt xs)).trans (List.Perm.cons x ih)

/-- Sort key of `order.py`: the tuple `(y0, x0)` under Python's
lexicographic `<`. -/
def ltTopLeft (a b : BBox) : Bool :=
  decide (a.y0 < b.y0 ∨ (a.y0 = b.y0 ∧ a.x0 < b.x0))

/-- `column_index` of `heuristic_reading_order`:
`min(int(center_x // col_width), num_columns - 1)`. -/
def columnIndex (r : BBox) (col_width : ℚ) (num_columns : Int) : Int :=
  min ⌊(((r.x0 + r.x1 : Int) : ℚ) / 2) / col_width⌋ (num_columns - 1)

/-- `layout.order.heuristic_reading_order`.  `.error` models the raised
exception: `ValueError` for `num_columns < 1` or `max()` over no regions,
`ZeroDivisionError` when `col_width` is zero (first `//` in the bucket
loop, which runs on at least one region whenever `max()` succeeded). -/
def heuristic_reading_order (ocr_regions : List BBox) (num_columns : Int) :
    Except PyErr (List Nat) :=
  if num_columns < 1 then .error (.valueError "num_columns must be >= 1")
  else
    match pyMaxInts (ocr_regions.map (fun r => r.x1)) with
    | none => .error (.valueError "max() arg is an empty sequence")
    | some page_width =>
      let col_width : ℚ := (page_width : ℚ) / (num_columns : ℚ)
      if col_width = 0 then .error .zeroDivisionError
      else
        let indexed := ocr_regions.enum
        .ok (((List.range num_columns.toNat).map (fun (col : Nat) =>
          (pySort (fun p q => ltTopLeft p.2 q.2)
            (indexed.filter
              (fun p => columnIndex p.2 col_width num_columns = (col : Int)))).map
            Prod.fst)).flatten)

/-- C10: on the empty region list every `num_columns ≥ 1` raises the
`ValueError` of `max()` over an empty sequence while computing the page
width — no empty permutation is returned. -/
theorem heuristic_reading_order_empty (n : Int) (h : 1 ≤ n) :
    heuristic_reading_order [] n =
      .error (.valueError "max() arg is an empty sequence") := by
  unfold heuristic_reading_order
  have h' : ¬ n < 1 := by omega
  simp [h', pyMaxInts]

/-- C10, witness: the empty list with `num_columns = 2`. -/
theorem heuristic_reading_order_empty_witness :
    (1 : Int) ≤ 2 ∧
      heuristic_reading_order [] 2 =
        .error (.valueError "max() arg is an empty sequence") :=
  ⟨by decide, heuristic_reading_order_empty 2 (by decide)⟩

theorem count_filter_eq [DecidableEq α] (a : α) (p : α → Bool) (l : List α) :
    (l.filter p).count a = if p a then l.count a else 0 := by
  induction l with
  | nil => simp
  | cons x xs ih =>
    by_cases hpx : p x = true
    · by_cases hxa : x = a
      · subst hxa
        simp [List.filter_cons, hpx, List.count_cons, ih]
      · simp [List.filter_cons, hpx, List.count_cons, hxa, ih]
    · by_cases hxa : x = a
      · subst hxa
        simp [List.filter_cons, hpx, List.count_cons, ih,
          Bool.not_eq_true _ ▸ hpx]
      · simp [List.filter_cons, hpx, List.count_cons, hxa, ih]

theorem sum_range_indicator (n : Nat) (c0 : Int) (k : Nat) :
    ((List.range n).map (fun (col : Nat) => if c0 = (col : Int) then k else 0)).sum
      = if 0 ≤ c0 ∧ c0 < (n : Int) then k else 0 := by
  induction n with
  | zero =>
    have h0 : ¬(0 ≤ c0 ∧ c0 < (0 : Int)) := by omega
    simp [h0]
  | succ m ih =>
    have hr : List.range (m + 1) = List.range m ++ [m] := by
      simpa using List.range_succ (n := m)
    rw [hr, List.map_append, List.sum_append, ih]
    simp only [List.map_cons, List.map_nil, List.sum_cons, List.sum_nil,
      Nat.add_zero]
    by_cases hc : c0 = (m : Int)
    · rw [if_pos hc, if_neg (show ¬(0 ≤ c0 ∧ c0 < (m : Int)) by omega),
        if_pos (show 0 ≤ c0 ∧ c0 < ((m + 1 : Nat) : Int) by push_cast; omega)]
      omega
    · rw [if_neg hc]
      by_cases hlt : 0 ≤ c0 ∧ c0 < (m : Int)
      · rw [if_pos hlt,
          if_pos (show 0 ≤ c0 ∧ c0 < ((m + 1 : Nat) : Int) by push_cast at hlt ⊢; omega)]
        omega
      · rw [if_neg hlt,
          if_neg (show ¬(0 ≤ c0 ∧ c0 < ((m + 1 : Nat) : Int)) by push_cast at hlt hc ⊢; omega)]

/-- Partitioning a list into the buckets `f · = 0, …, f · = n-1` and
concatenating the buckets permutes the list, provided every element's
bucket is in range. -/
theorem flatten_filter_range_perm [DecidableEq α] (l : List α) (f : α → Int)
    (n : Nat) (h : ∀ x ∈ l, 0 ≤ f x ∧ f x < (n : Int)) :
    (((List.range n).map
        (fun (col : Nat) => l.filter (fun x => f x = (col : Int)))).flatten).Perm l := by
  rw [List.perm_iff_count]
  intro a
  rw [List.count_flatten, List.map_map]
  have hmap : ((List.range n).map
      (List.count a ∘ fun (col : Nat) => l.filter (fun x => f x = (col : Int))))
      = (List.range n).map
          (fun (col : Nat) => if f a = (col : Int) then l.count a else 0) := by
    apply List.map_congr_left
    intro col _
    simp only [Function.comp_apply]
    rw [show (fun x => decide (f x = (col : Int))) = (fun x => decide (f x = (col : Int))) from rfl]
    have := count_filter_eq a (fun x => decide (f x = (col : Int))) l
    simp only [decide_eq_true_eq] at this
    exact this
  rw [hmap, sum_range_indicator]
  by_cases hmem : a ∈ l
  · have := h a hmem
    simp [this]
  · have hz : l.count a = 0 := List.count_eq_zero.mpr hmem
    simp [hz]

theorem flatten_map_perm (cols : List Nat) (g h : Nat → List α)
    (hp : ∀ c ∈ cols, (g c).Perm (h c)) :
    ((cols.map g).flatten).Perm ((cols.map h).flatten) := by
  induction cols with
  | nil => exact List.Perm.refl _
  | cons c cs ih =>
    simp only [List.map_cons, List.flatten_cons]
    exact List.Perm.append (hp c (List.mem_cons_self c cs))
      (ih (fun d hd => hp d (List.mem_cons_of_mem c hd)))

/-- Modelled from the spec: "sorting the regions by (top edge ascending,
left edge ascending)" — the stable sort of the indexed regions by that
key, returned as indices (ties keep input order, as Python's stable sort
does). -/
def specTopLeftOrder (regions : List BBox) : List Nat :=
  (pySort (fun p q => ltTopLeft p.2 q.2) regions.enum).map Prod.fst

/-- Success-path unfolding of `heuristic_reading_order`. -/
theorem heuristic_reading_order_ok (regions : List BBox) (n : Int) (pw : Int)
    (hn : ¬ n < 1) (hmax : pyMaxInts (regions.map (fun r => r.x1)) = some pw)
    (hcw : ¬ ((pw : ℚ) / (n : ℚ)) = 0) :
    heuristic_reading_order regions n =
      .ok (((List.range n.toNat).map (fun (col : Nat) =>
        (pySort (fun p q => ltTopLeft p.2 q.2)
          (regions.enum.filter
            (fun p => columnIndex p.2 ((pw : ℚ) / (n : ℚ)) n = (col : Int)))).map
          Prod.fst)).flatten) := by
  unfold heuristic_reading_order
  rw [if_neg hn, hmax]
  simp only [if_neg hcw]

theorem columnIndex_bounds (r : BBox) (cw : ℚ) (n : Int)
    (hc : 0 ≤ r.x0 + r.x1) (hcw : 0 < cw) (hn : 1 ≤ n) :
    0 ≤ columnIndex r cw n ∧ columnIndex r cw n < n := by
  unfold columnIndex
  have hfloor : 0 ≤ ⌊(((r.x0 + r.x1 : Int) : ℚ) / 2) / cw⌋ := by
    apply Int.floor_nonneg.mpr
    apply div_nonneg
    · apply div_nonneg
      · exact_mod_cast hc
      · norm_num
    · exact le_of_lt hcw
  refine ⟨le_min hfloor (by omega), ?_⟩
  have := min_le_right ⌊(((r.x0 + r.x1 : Int) : ℚ) / 2) / cw⌋ (n - 1)
  omega

theorem mem_of_mem_enum {α : Type} {p : Nat × α} {l : List α}
    (hp : p ∈ l.enum) : p.2 ∈ l := by
  have h2 := List.enum_map_snd l
  have := List.mem_map_of_mem Prod.snd hp
  rwa [h2] at this

/-- C5, counterexample.  Two concrete inputs on which
`heuristic_reading_order` does not return a permutation of the index
range: a single region whose right edge is 0 (the page width is 0, so the
first floor-division raises `ZeroDivisionError`), and a region pair where
the second region's horizontal center is negative (its bucket index is
negative, so it is silently dropped from the output). -/
theorem heuristic_reading_order_not_perm :
    heuristic_reading_order [⟨0, 0, 0, 10⟩] 1 = .error .zeroDivisionError
    ∧ heuristic_reading_order [⟨0, 0, 100, 10⟩, ⟨-50, 0, -40, 10⟩] 2 = .ok [0]
    ∧ ¬ ([0] : List Nat).Perm (List.range 2) := by
  refine ⟨?_, ?_, by decide⟩
  · unfold heuristic_reading_order
    norm_num [pyMaxInts]
  · unfold heuristic_reading_order
    norm_num [pyMaxInts, columnIndex, pySort, insertStable, ltTopLeft,
      List.enum, List.enumFrom, Int.toNat_ofNat, List.range_succ,
      List.range_zero, List.filter_cons, List.filter_nil, List.map_cons,
      List.map_nil, List.flatten, List.foldr]

/-- C5 (amended): for every non-empty region list whose regions have
nonnegative horizontal centers and at least one positive right edge, and
every `num_columns ≥ 1`, `heuristic_reading_order` returns a permutation
of the indices `[0, len)`; with `num_columns = 1` it returns exactly the
stable sort of the indices by (top edge ascending, left edge ascending). -/
theorem heuristic_reading_order_spec :
    (∀ (regions : List BBox) (n : Int),
      1 ≤ n →
      (∀ r ∈ regions, 0 ≤ r.x0 + r.x1) →
      (∃ r ∈ regions, 0 < r.x1) →
      ∃ out, heuristic_reading_order regions n = .ok out ∧
        out.Perm (List.range regions.length))
    ∧ (∀ regions : List BBox,
      (∀ r ∈ regions, 0 ≤ r.x0 + r.x1) →
      (∃ r ∈ regions, 0 < r.x1) →
      heuristic_reading_order regions 1 = .ok (specTopLeftOrder regions)) := by
  have main : ∀ (regions : List BBox) (n : Int),
      1 ≤ n →
      (∀ r ∈ regions, 0 ≤ r.x0 + r.x1) →
      (∃ r ∈ regions, 0 < r.x1) →
      ∃ pw : Int, 0 < pw ∧
        pyMaxInts (regions.map (fun r => r.x1)) = some pw ∧
        ¬ ((pw : ℚ) / (n : ℚ)) = 0 ∧
        (∀ p ∈ regions.enum,
          0 ≤ columnIndex p.2 ((pw : ℚ) / (n : ℚ)) n ∧
          columnIndex p.2 ((pw : ℚ) / (n : ℚ)) n < n) := by
    intro regions n hn hc ⟨r0, hr0, hr0x⟩
    obtain ⟨pw, hmax⟩ : ∃ pw, pyMaxInts (regions.map (fun r => r.x1)) = some pw := by
      cases hreg : regions with
      | nil => rw [hreg] at hr0; exact absurd hr0 (List.not_mem_nil r0)
      | cons a as => exact ⟨_, rfl⟩
    have hpw : 0 < pw :=
      lt_of_lt_of_le hr0x
        (pyMaxInts_ge _ pw hmax r0.x1 (List.mem_map_of_mem (fun r => r.x1) hr0))
    have hnq : (0 : ℚ) < (n : ℚ) := by exact_mod_cast lt_of_lt_of_le one_pos hn
    have hcwpos : 0 < (pw : ℚ) / (n : ℚ) := by
      apply div_pos _ hnq
      exact_mod_cast hpw
    refine ⟨pw, hpw, hmax, ne_of_gt hcwpos, ?_⟩
    intro p hp
    exact columnIndex_bounds p.2 _ n (hc p.2 (mem_of_mem_enum hp)) hcwpos hn
  constructor
  · intro regions n hn hc hex
    obtain ⟨pw, hpw, hmax, hcw, hbounds⟩ := main regions n hn hc hex
    rw [heuristic_reading_order_ok regions n pw (by omega) hmax hcw]
    refine ⟨_, rfl, ?_⟩
    set cw : ℚ := (pw : ℚ) / (n : ℚ) with hcwdef
    set f : Nat × BBox → Int := fun p => columnIndex p.2 cw n with hfdef
    have hsortstep :
        (((List.range n.toNat).map (fun (col : Nat) =>
          (pySort (fun p q => ltTopLeft p.2 q.2)
            (regions.enum.filter (fun p => f p = (col : Int)))).map
            Prod.fst)).flatten).Perm
        ((((List.range n.toNat).map (fun (col : Nat) =>
          regions.enum.filter (fun p => f p = (col : Int)))).flatten).map
            Prod.fst) := by
      rw [List.map_flatten, List.map_map]
      apply flatten_map_perm
      intro c _
      exact (pySort_perm _ _).map Prod.fst
    apply hsortstep.trans
    have hpart : ((((List.range n.toNat).map (fun (col : Nat) =>
        regions.enum.filter (fun p => f p = (col : Int)))).flatten)).Perm
          regions.enum := by
      apply flatten_filter_range_perm
      intro x hx
      have := hbounds x hx
      have hcast : ((n.toNat : Nat) : Int) = n := Int.toNat_of_nonneg (by omega)
      rw [hcast]
      exact this
    have := hpart.map Prod.fst
    rw [List.enum_map_fst] at this
    exact this
  · intro regions hc hex
    obtain ⟨pw, hpw, hmax, hcw, hbounds⟩ := main regions 1 (le_refl 1) hc hex
    rw [heuristic_reading_order_ok regions 1 pw (by omega) hmax hcw]
    have hfilter :
        regions.enum.filter
            (fun p => columnIndex p.2 ((pw : ℚ) / ((1 : Int) : ℚ)) 1 = ((0 : Nat) : Int))
          = regions.enum := by
      apply List.filter_eq_self.mpr
      intro p hp
      have := hbounds p hp
      simp only [decide_eq_true_eq]
      omega
    show Except.ok _ = _
    rw [show (1 : Int).toNat = 1 from rfl,
      show List.range 1 = [0] from rfl, List.map_cons,
      List.map_nil, List.flatten_cons, List.flatten_nil, List.append_nil,
      hfilter]
    rfl

/-- C5, witness: both parts of `heuristic_reading_order_spec` applied to a
concrete two-region page. -/
theorem heuristic_reading_order_spec_witness :
    (∃ out, heuristic_reading_order [⟨0, 0, 100, 10⟩, ⟨0, 20, 40, 30⟩] 2 = .ok out ∧
        out.Perm (List.range 2))
    ∧ heuristic_reading_order [⟨0, 0, 100, 10⟩, ⟨0, 20, 40, 30⟩] 1 =
        .ok (specTopLeftOrder [⟨0, 0, 100, 10⟩, ⟨0, 20, 40, 30⟩]) :=
  ⟨heuristic_reading_order_spec.1 [⟨0, 0, 100, 10⟩, ⟨0, 20, 40, 30⟩] 2
      (by decide) (by decide) (by decide),
   heuristic_reading_order_spec.2 [⟨0, 0, 100, 10⟩, ⟨0, 20, 40, 30⟩]
      (by decide) (by decide)⟩

/-! ## `src/ocr/toc.py` — TOC tree and page ranges -/

/-- A TOC tree node (`{title, page_start, page_end, level, children}`). -/
inductive Node where
  | mk (title : String) (page_start : Option Int) (page_end : Option Int)
      (level : Int) (children : List Node)

def Node.title : Node → String
  | .mk t _ _ _ _ => t

def Node.page_start : Node → Option Int
  | .mk _ ps _ _ _ => ps

def Node.page_end : Node → Option Int
  | .mk _ _ pe _ _ => pe

def Node.level : Node → Int
  | .mk _ _ _ lvl _ => lvl

def Node.children : Node → List Node
  | .mk _ _ _ _ cs => cs

mutual

/-- `fill_missing_starts` on one node: recurse into the children first,
then copy the (already filled) first child's `page_start` when the node
has none. -/
def fillNode : Node → Node
  | .mk t ps pe lvl [] => .mk t ps pe lvl []
  | .mk t ps pe lvl (c :: cs) =>
      let c' := fillNode c
      let cs' := fillForest cs
      .mk t (if ps = none then c'.page_start else ps) pe lvl (c' :: cs')

/-- `fill_missing_starts` over a sibling list. -/
def fillForest : List Node → List Node
  | [] => []
  | n :: ns => fillNode n :: fillForest ns

end

/-- The `page_end` chosen by one iteration of `assign_ends`:
`inherited_end` if the node has no `page_start` or there is no next
sibling with a known `page_start`, else
`max(page_start, next.page_start - 1)`. -/
def sibEnd (ps : Option Int) (next : Option Node) (B : Int) : Int :=
  match ps with
  | none => B
  | some p =>
    match next with
    | none => B
    | some m =>
      match m.page_start with
      | none => B
      | some q => max p (q - 1)

/-- `assign_ends(siblings, inherited_end)`: set each sibling's `page_end`
and recurse into its children with that `page_end` as their inherited
bound. -/
def assignEnds : List Node → Int → List Node
  | [], _ => []
  | .mk t ps _pe lvl cs :: rest, B =>
      let e := sibEnd ps rest.head? B
      .mk t ps (some e) lvl (assignEnds cs e) :: assignEnds rest B

/-- `compute_page_ranges(nodes, last_page)` (the in-place mutation as a
pure two-pass transform). -/
def compute_page_ranges (nodes : List Node) (last_page : Int) : List Node :=
  assignEnds (fillForest nodes) last_page

mutual

/-- A node together with all its descendants. -/
def nodeAll : Node → List Node
  | .mk t ps pe lvl cs => .mk t ps pe lvl cs :: forestAll cs

/-- All nodes of a forest. -/
def forestAll : List Node → List Node
  | [] => []
  | n :: ns => nodeAll n ++ forestAll ns

end

/-- Precondition under which `assign_ends` keeps `page_end ≥ page_start`:
every resolved `page_start` is at most the bound its sibling list
inherits (`last_page` at the roots, the parent's computed `page_end`
below). -/
def okBound : List Node → Int → Bool
  | [], _ => true
  | .mk _ ps _ _ cs :: rest, B =>
      let e := sibEnd ps rest.head? B
      (match ps with
        | none => true
        | some p => decide (p ≤ e)) && okBound cs e && okBound rest B

theorem assignEnds_length (l : List Node) (B : Int) :
    (assignEnds l B).length = l.length := by
  induction l generalizing B with
  | nil => simp [assignEnds]
  | cons n rest ih =>
    cases n with
    | mk t ps pe lvl cs => simp [assignEnds, ih]

/-- C2, counterexample.  Siblings with `page_start` 10 and 5 under
inherited bound 30: the next sibling's `page_start` (5) is known but does
not exceed the node's own (10), and the code assigns
`page_end = max(10, 5-1) = 10`, not the inherited bound 30 the claim
predicts. -/
theorem assignEnds_not_inherited_on_small_next :
    compute_page_ranges
        [.mk "a" (some 10) none 0 [], .mk "b" (some 5) none 0 []] 30
      = [.mk "a" (some 10) (some 10) 0 [], .mk "b" (some 5) (some 30) 0 []]
    ∧ (some (10 : Int) : Option Int) ≠ some 30 := by
  constructor
  · simp [compute_page_ranges, fillForest, fillNode, assignEnds, sibEnd,
      Node.page_start]
  · simp

/-- C2 (amended): in `assign_ends`, a node with resolved `page_start p`
gets `page_end = max(p, q - 1)` when the next sibling exists with known
`page_start q` (hence `q - 1` exactly when `q > p`, and `p` itself when
`q ≤ p`), and the inherited bound `B` when there is no next sibling or its
`page_start` is unknown; its children are resolved with the node's
`page_end` as their inherited bound.  On roots with `page_start` `[10, 20]`
and `last_page = 30`, root 1 gets `page_end` 19 and root 2 gets 30. -/
theorem assignEnds_spec :
    (∀ (siblings : List Node) (B : Int) (i : Nat) (node : Node) (p : Int),
      siblings.get? i = some node → node.page_start = some p →
      ∃ node', (assignEnds siblings B).get? i = some node' ∧
        node'.page_end = some (match (siblings.get? (i+1)).bind Node.page_start with
          | some q => max p (q - 1)
          | none => B) ∧
        node'.children = assignEnds node.children
          (match (siblings.get? (i+1)).bind Node.page_start with
            | some q => max p (q - 1)
            | none => B))
    ∧ compute_page_ranges
        [.mk "r1" (some 10) none 0 [], .mk "r2" (some 20) none 0 []] 30
      = [.mk "r1" (some 10) (some 19) 0 [], .mk "r2" (some 20) (some 30) 0 []] := by
  constructor
  · intro siblings
    induction siblings with
    | nil => intro B i node p hget; simp at hget
    | cons n rest ih =>
      intro B i node p hget hps
      cases n with
      | mk t nps npe lvl cs =>
        cases i with
        | zero =>
          have hnode : node = Node.mk t nps npe lvl cs := by
            simpa using hget.symm
          subst hnode
          simp only [Node.page_start] at hps
          subst hps
          have hg1 : (Node.mk t (some p) npe lvl cs :: rest).get? (0+1)
              = rest.head? := by
            cases rest <;> rfl
          have hmatch :
              (match rest.head?.bind Node.page_start with
                | some q => max p (q - 1)
                | none => B) = sibEnd (some p) rest.head? B := by
            cases rest with
            | nil => simp [sibEnd]
            | cons m ms =>
              cases hm : m.page_start with
              | none => simp [sibEnd, hm]
              | some q => simp [sibEnd, hm]
          rw [hg1, hmatch]
          refine ⟨Node.mk t (some p) (some (sibEnd (some p) rest.head? B)) lvl
            (assignEnds cs (sibEnd (some p) rest.head? B)), ?_, rfl, ?_⟩
          · rw [assignEnds]
            rfl
          · simp [Node.children]
        | succ j =>
          have hget' : rest.get? j = some node := by simpa using hget
          obtain ⟨node', h1, h2, h3⟩ := ih B j node p hget' hps
          have hg1 : (Node.mk t nps npe lvl cs :: rest).get? (j+1+1)
              = rest.get? (j+1) := by rfl
          rw [hg1]
          refine ⟨node', ?_, h2, h3⟩
          rw [assignEnds]
          simpa using h1
  · simp [compute_page_ranges, fillForest, fillNode, assignEnds, sibEnd,
      Node.page_start]

/-- C2, witness: `assignEnds_spec` applied to the two-root example, index
0. -/
theorem assignEnds_spec_witness :
    ∃ node', (assignEnds
        [.mk "r1" (some 10) none 0 [], .mk "r2" (some 20) none 0 []] 30).get? 0
        = some node' ∧
      node'.page_end = some (max 10 (20 - 1)) ∧
      node'.children = assignEnds [] (max 10 (20 - 1)) := by
  have h := assignEnds_spec.1
    [.mk "r1" (some 10) none 0 [], .mk "r2" (some 20) none 0 []] 30 0
    (.mk "r1" (some 10) none 0 []) 10 rfl rfl
  simpa [Node.children, Node.page_start] using h

/-- Helper for C7: under `okBound`, every node of the `assign_ends` result
with both bounds resolved has `page_end ≥ page_start`. -/
theorem assignEnds_okBound :
    ∀ (siblings : List Node) (B : Int), okBound siblings B = true →
    ∀ n ∈ forestAll (assignEnds siblings B),
      ∀ p e, n.page_start = some p → n.page_end = some e → p ≤ e := by
  intro siblings B
  induction siblings, B using assignEnds.induct with
  | case1 B =>
    intro _ n hn
    rw [assignEnds, forestAll] at hn
    exact absurd hn (List.not_mem_nil n)
  | case2 t ps _pe lvl cs rest B e ih1 ih2 =>
    intro hok n hn p q hp hq
    rw [assignEnds] at hn
    rw [okBound.eq_def] at hok
    simp only [] at hok
    simp only [Bool.and_eq_true] at hok
    obtain ⟨⟨hple, hokcs⟩, hokrest⟩ := hok
    rw [forestAll, nodeAll] at hn
    rcases List.mem_append.mp hn with hL | hR
    · rcases List.mem_cons.mp hL with hhead | hmid
      · subst hhead
        simp only [Node.page_start] at hp
        simp only [Node.page_end, Option.some.injEq] at hq
        subst hp
        simp only [decide_eq_true_eq] at hple
        omega
      · exact ih1 hokcs n hmid p q hp hq
    · exact ih2 hokrest n hR p q hp hq

/-- C7, counterexample.  A single root with `page_start = 50` and
`last_page = 30`: both bounds resolve, but `page_end = 30 < 50 =
page_start`. -/
theorem compute_page_ranges_end_lt_start :
    compute_page_ranges [.mk "a" (some 50) none 0 []] 30
      = [.mk "a" (some 50) (some 30) 0 []]
    ∧ ¬ ((50 : Int) ≤ 30) := by
  constructor
  · simp [compute_page_ranges, fillForest, fillNode, assignEnds, sibEnd]
  · omega

/-- C7 (amended): after `compute_page_ranges`, every node with both bounds
resolved has `page_end ≥ page_start`, provided every resolved `page_start`
in the filled tree is at most the bound its sibling list inherits
(`last_page` at the roots, the parent's computed `page_end` below) — the
`okBound` precondition. -/
theorem compute_page_ranges_end_ge_start (nodes : List Node) (last_page : Int)
    (h : okBound (fillForest nodes) last_page = true) :
    ∀ n ∈ forestAll (compute_page_ranges nodes last_page),
      ∀ p e, n.page_start = some p → n.page_end = some e → p ≤ e := by
  unfold compute_page_ranges
  exact assignEnds_okBound (fillForest nodes) last_page h

/-- C7, witness: a two-root tree with a child, `last_page = 9`, satisfying
`okBound`. -/
theorem compute_page_ranges_end_ge_start_witness :
    okBound (fillForest
        [.mk "a" (some 1) none 0 [.mk "b" (some 2) none 1 []],
         .mk "c" (some 5) none 0 []]) 9 = true
    ∧ ∀ n ∈ forestAll (compute_page_ranges
        [.mk "a" (some 1) none 0 [.mk "b" (some 2) none 1 []],
         .mk "c" (some 5) none 0 []] 9),
      ∀ p e, n.page_start = some p → n.page_end = some e → p ≤ e := by
  have hok : okBound (fillForest
      [.mk "a" (some 1) none 0 [.mk "b" (some 2) none 1 []],
       .mk "c" (some 5) none 0 []]) 9 = true := by
    simp [okBound, fillForest, fillNode, sibEnd, Node.page_start]
  exact ⟨hok, compute_page_ranges_end_ge_start _ 9 hok⟩

/-! ## `src/ocr/toc.py` — TOC line parsing

The two regexes of `toc.py` are unfolded into explicit character scans:

* `DOT_LEADER_RE = r"\.{2,}\s*$"` — a run of two or more dots followed
  only by whitespace, at the end of the line;
* `TOC_LINE_RE = r"^(?P<title>.+?)\.{2,}\s*(?P<page>\d+)$"` — a lazy
  (shortest) title, a dot run of length ≥ 2, optional whitespace, digits
  to the end.

`\s`, `\d` and `\w` are modelled on their ASCII fragment and `.` as "any
character" (OCR line fragments contain no newline). -/

/-- Python's `\s` (ASCII fragment). -/
def isPySpace (c : Char) : Bool :=
  c = ' ' || c = '\t' || c = '\n' || c = '\r' || c = '\x0b' || c = '\x0c'

/-- Python's `\w` (ASCII fragment). -/
def isWordChar (c : Char) : Bool := c.isAlphanum || c = '_'

def lstrip (s : List Char) : List Char := s.dropWhile isPySpace

def rstrip (s : List Char) : List Char := (s.reverse.dropWhile isPySpace).reverse

/-- Python's `str.strip()`. -/
def pyStrip (s : List Char) : List Char := rstrip (lstrip s)

/-- Does `\.{2,}\s*$` match at exactly this position (the match must then
extend to the end of the string)? -/
def dotLeaderAt (s : List Char) : Bool :=
  decide ((s.takeWhile (fun c => c = '.')).length ≥ 2)
    && (s.dropWhile (fun c => c = '.')).all isPySpace

/-- `DOT_LEADER_RE.sub("", raw_text)`: remove the leftmost match of
`\.{2,}\s*$`. -/
def subDotLeader : List Char → List Char
  | [] => []
  | c :: cs => if dotLeaderAt (c :: cs) then [] else c :: subDotLeader cs

/-- `int(...)` on a digit string. -/
def digitsToInt (ds : List Char) : Int :=
  ((ds.foldl (fun n c => n * 10 + (c.toNat - Char.toNat '0')) 0 : Nat) : Int)

/-- Does `s` match `\.{2,}\s*(\d+)$` entirely?  If so, return the page
number. -/
def tocTail (s : List Char) : Option Int :=
  let dots := s.takeWhile (fun c => c = '.')
  if dots.length < 2 then none
  else
    let rest := s.dropWhile (fun c => c = '.')
    let digits := rest.dropWhile isPySpace
    if !digits.isEmpty && digits.all Char.isDigit then
      some (digitsToInt digits)
    else none

/-- The lazy-title scan of `TOC_LINE_RE`: the title is the shortest
nonempty prefix whose remainder matches `\.{2,}\s*(\d+)$`. -/
def tocSplit (acc : List Char) : List Char → Option (List Char × Int)
  | [] => none
  | c :: rest =>
    match tocTail rest with
    | some page => some (acc ++ [c], page)
    | none => tocSplit (acc ++ [c]) rest

/-- `TOC_LINE_RE.match(text)`. -/
def tocMatch (s : List Char) : Option (List Char × Int) := tocSplit [] s

/-- One OCR line kept by the content filter of `parse_toc_page`
(`{"text": …, "size": …}`). -/
structure TocLine where
  text : List Char
  size : ℚ

/-- One raw TOC entry (`{"title": …, "page_start": …, "level": …}`). -/
structure TocEntry where
  title : List Char
  page_start : Option Int
  level : Nat
deriving DecidableEq, Repr

/-- Index of the first occurrence (total: the Python code only looks up
keys that are present). -/
def listIdx [DecidableEq α] (a : α) : List α → Nat
  | [] => 0
  | x :: xs => if x = a then 0 else listIdx a xs + 1

/-- `sorted({size for each line}, reverse=True)`: the distinct font sizes
in descending order; `font_to_level` is the index in this list. -/
def fontLevels (lines : List TocLine) : List ℚ :=
  pySort (fun a b => decide (b < a)) ((lines.map (fun l => l.size)).dedup)

/-- The body of the entry loop of `parse_toc_page` for one kept line. -/
def parseTocLine (font_sizes : List ℚ) (ocr : TocLine) : TocEntry :=
  let raw_text := pyStrip ocr.text
  let text := rstrip (subDotLeader raw_text)
  let level := listIdx ocr.size font_sizes
  match tocMatch text with
  | some (t, page) => ⟨pyStrip t, some page, level⟩
  | none => ⟨text, none, level⟩

/-- Lines 52–83 of `parse_toc_page`: font-size ranking followed by the
entry loop over the kept OCR lines. -/
def parse_toc_lines (filtered_ocr : List TocLine) : List TocEntry :=
  let font_sizes := fontLevels filtered_ocr
  filtered_ocr.map (parseTocLine font_sizes)

theorem isDigit_ne_dot (c : Char) (h : c.isDigit = true) : (c = '.') = False := by
  simp only [eq_iff_iff, iff_false]
  intro hc
  subst hc
  simp at h

theorem tocSplit_all_digits (s : List Char) (hs : s.all Char.isDigit = true) :
    ∀ acc, tocSplit acc s = none := by
  induction s with
  | nil => intro acc; rfl
  | cons c rest ih =>
    intro acc
    have hrest : rest.all Char.isDigit = true := by
      simp only [List.all_cons, Bool.and_eq_true] at hs
      exact hs.2
    have htail : tocTail rest = none := by
      unfold tocTail
      cases rest with
      | nil => rfl
      | cons d ds =>
        have hd : d.isDigit = true := by
          simp only [List.all_cons, Bool.and_eq_true] at hrest
          exact hrest.1
        simp [List.takeWhile, isDigit_ne_dot d hd]
    unfold tocSplit
    rw [htail]
    exact ih hrest (acc ++ [c])

/-- C1, counterexample.  Two kept lines "Intro" (no page number, so its
entry's `page_start` stays unset) and "12" (purely numeric): the code
produces *two* entries and leaves the first entry's `page_start` unset —
the numeric line is not consumed as the previous entry's page number. -/
theorem parse_toc_lines_numeric_line_kept :
    parse_toc_lines [⟨"Intro".toList, 12⟩, ⟨"12".toList, 12⟩]
      = [⟨"Intro".toList, none, 0⟩, ⟨"12".toList, none, 0⟩]
    ∧ (2 : Nat) ≠ 1 := by
  constructor
  · rfl
  · decide

/-- C1 (amended): every kept line yields exactly one entry of its own:
after the dot-leader strip, a line matching
`<title><dot-leader><page-number>` yields that title (stripped) and that
page number; any other line — in particular a purely numeric one,
regardless of the previous entry's `page_start` — becomes a title-only
entry with `page_start` unknown. -/
theorem parse_toc_lines_spec (lines : List TocLine) :
    (parse_toc_lines lines).length = lines.length
    ∧ (∀ i (hi : i < lines.length),
        ∃ entry, (parse_toc_lines lines)[i]? = some entry ∧
          entry.level = listIdx lines[i].size (fontLevels lines) ∧
          (match tocMatch (rstrip (subDotLeader (pyStrip lines[i].text))) with
            | some (t, page) =>
                entry.title = pyStrip t ∧ entry.page_start = some page
            | none =>
                entry.title = rstrip (subDotLeader (pyStrip lines[i].text))
                ∧ entry.page_start = none))
    ∧ (∀ i (hi : i < lines.length),
        (rstrip (subDotLeader (pyStrip lines[i].text))).all Char.isDigit = true →
        ∃ entry, (parse_toc_lines lines)[i]? = some entry ∧
          entry.title = rstrip (subDotLeader (pyStrip lines[i].text))
          ∧ entry.page_start = none) := by
  refine ⟨by simp [parse_toc_lines], ?_, ?_⟩
  · intro i hi
    refine ⟨parseTocLine (fontLevels lines) lines[i], ?_, ?_⟩
    · simp [parse_toc_lines, List.getElem?_map, List.getElem?_eq_getElem hi]
    · cases h : tocMatch (rstrip (subDotLeader (pyStrip lines[i].text))) with
      | none => simp [parseTocLine, h]
      | some tp =>
        cases tp with
        | mk t page => simp [parseTocLine, h]
  · intro i hi hdig
    have hmatch : tocMatch (rstrip (subDotLeader (pyStrip lines[i].text))) = none :=
      tocSplit_all_digits _ hdig []
    refine ⟨parseTocLine (fontLevels lines) lines[i], ?_, ?_⟩
    · simp [parse_toc_lines, List.getElem?_map, List.getElem?_eq_getElem hi]
    · simp [parseTocLine, hmatch]

/-- C1, witness: `parse_toc_lines_spec` at the two-line counterexample
input, index 1 (the purely numeric line). -/
theorem parse_toc_lines_spec_witness :
    ∃ entry, (parse_toc_lines [⟨"Intro".toList, 12⟩, ⟨"12".toList, 12⟩])[1]?
        = some entry ∧
      entry.title = rstrip (subDotLeader (pyStrip "12".toList))
      ∧ entry.page_start = none :=
  (parse_toc_lines_spec [⟨"Intro".toList, 12⟩, ⟨"12".toList, 12⟩]).2.2 1
    (by decide) (by decide)

/-! ## `src/blocks/assemble.py` — `BlockAssembler.assemble_page` -/

/-- The `Block` dataclass. -/
structure Block where
  block_id : String
  order_id : Nat
  page : Nat
  type : String
  text : Option String
  title : Option String
  image_crop : Option String
deriving DecidableEq, Repr

/-- One OCR region as consumed by the assembler
(`{"text": …, "size": …, "bbox": …}`; `size` may be absent). -/
structure OcrRegion where
  bbox : BBox
  text : String
  size : Option ℚ
deriving DecidableEq, Repr, Inhabited

/-- One layout region (`{"label": …, "bbox": …}`). -/
structure LayoutRegion where
  label : String
  bbox : BBox
deriving DecidableEq, Repr

/-- Python's `f"{n:05d}"` for nonnegative `n`. -/
def pad5 (n : Nat) : String :=
  let s := toString n
  String.mk (List.replicate (5 - s.length) '0') ++ s

/-- The mutable per-page state of `assemble_page`. -/
structure AsmState where
  blocks : List Block
  order_id : Nat
  title_state : Option String
  current_text : List String
  emitted_tables : List Nat
deriving DecidableEq, Repr

/-- The closure `flush_text` of `assemble_page`. -/
def flush_text (page_index : Nat) (s : AsmState) : AsmState :=
  if s.current_text = [] then s
  else
    { blocks := s.blocks ++
        [⟨"blk_" ++ toString (page_index + 1) ++ "_" ++ pad5 s.order_id,
          s.order_id, page_index + 1, "text",
          some (String.intercalate " " s.current_text), s.title_state, none⟩],
      order_id := s.order_id + 1,
      title_state := s.title_state,
      current_text := [],
      emitted_tables := s.emitted_tables }

/-- The first layout region intersecting the OCR bbox, if any
(`matched_layout`), projected to its label. -/
def matchedLabel (layout_regions : List LayoutRegion) (bbox : BBox) :
    Option String :=
  (layout_regions.find? (fun lr => intersects bbox lr.bbox (3/10))).map
    (fun lr => lr.label)

/-- Index of the first table region intersecting the OCR bbox
(`table_index`). -/
def findTableIdx (table_regions : List LayoutRegion) (bbox : BBox) :
    Option Nat :=
  table_regions.findIdx? (fun tbl => intersects bbox tbl.bbox (3/10))

/-- One iteration of the region loop of `assemble_page`.  `idx` is the
position in `ordered_ocr` (used for the font-size neighbor checks).
Python truthiness of `self.prose_font_size` makes `some 0` behave like
`none`. -/
def stepRegion (crop_dir : String) (prose_font_size : Option ℚ)
    (page_index : Nat) (layout_regions table_regions : List LayoutRegion)
    (ordered_ocr : List OcrRegion) (s : AsmState) (idx : Nat)
    (ocr : OcrRegion) : AsmState :=
  let label := matchedLabel layout_regions ocr.bbox
  if label = some "footer" ∨ label = some "number" ∨ label = some "image"
      ∨ label = some "aside_text" then s
  else if label = some "paragraph_title" ∨ label = some "figure_title" then
    let s' := flush_text page_index s
    { s' with title_state := some ocr.text }
  else
    match findTableIdx table_regions ocr.bbox with
    | some table_index =>
      if table_index ∈ s.emitted_tables then s
      else
        let s' := flush_text page_index s
        let block_id := "tbl_" ++ toString (page_index + 1) ++ "_" ++ pad5 s'.order_id
        let crop_path := crop_dir ++ "/" ++ block_id ++ ".png"
        { s' with
          blocks := s'.blocks ++ [⟨block_id, s'.order_id, page_index + 1,
            "table", none, s'.title_state, some crop_path⟩],
          order_id := s'.order_id + 1,
          emitted_tables := s'.emitted_tables ++ [table_index] }
    | none =>
      match prose_font_size, ocr.size with
      | some pfs, some size =>
        if pfs = 0 then { s with current_text := s.current_text ++ [ocr.text] }
        else if size ≤ pfs then
          { s with current_text := s.current_text ++ [ocr.text] }
        else
          let prev_size : Option ℚ := match idx with
            | 0 => none
            | j + 1 => (ordered_ocr[j]?).bind (fun r => r.size)
          let next_size : Option ℚ := (ordered_ocr[idx + 1]?).bind (fun r => r.size)
          if prev_size ≠ some size ∧ next_size ≠ some size then
            let s' := flush_text page_index s
            { s' with title_state := some ocr.text }
          else { s with current_text := s.current_text ++ [ocr.text] }
      | _, _ => { s with current_text := s.current_text ++ [ocr.text] }

/-- `assemble_page` up to the final state (`reading_order` is assumed to
index into `ocr_regions`, as in every caller; Python would raise
`IndexError` otherwise). -/
def assemble_run (crop_dir : String) (prose_font_size : Option ℚ)
    (page_index : Nat) (ocr_regions : List OcrRegion)
    (reading_order : List Nat) (layout_regions : List LayoutRegion) :
    AsmState :=
  let ordered_ocr := reading_order.map (fun i => ocr_regions.getD i default)
  let table_regions := layout_regions.filter (fun lr => lr.label = "table")
  flush_text page_index
    (ordered_ocr.enum.foldl
      (fun s p => stepRegion crop_dir prose_font_size page_index
        layout_regions table_regions ordered_ocr s p.1 p.2)
      ⟨[], 0, none, [], []⟩)

/-- `BlockAssembler.assemble_page`. -/
def assemble_page (crop_dir : String) (prose_font_size : Option ℚ)
    (page_index : Nat) (ocr_regions : List OcrRegion)
    (reading_order : List Nat) (layout_regions : List LayoutRegion) :
    List Block :=
  (assemble_run crop_dir prose_font_size page_index ocr_regions
    reading_order layout_regions).blocks

/-- The table bookkeeping invariant of `assemble_page`: the emitted table
indices are pairwise distinct, and there are exactly as many table-typed
blocks as emitted table indices. -/
def TableInv (s : AsmState) : Prop :=
  s.emitted_tables.Nodup
  ∧ (s.blocks.filter (fun b => b.type = "table")).length
      = s.emitted_tables.length

theorem flush_text_blocks (page_index : Nat) (s : AsmState) :
    (flush_text page_index s).blocks
      = s.blocks ++ (if s.current_text = [] then [] else
          [⟨"blk_" ++ toString (page_index + 1) ++ "_" ++ pad5 s.order_id,
            s.order_id, page_index + 1, "text",
            some (String.intercalate " " s.current_text), s.title_state,
            none⟩]) := by
  unfold flush_text
  by_cases h : s.current_text = []
  · simp [h]
  · simp [h]

theorem flush_text_current (page_index : Nat) (s : AsmState) :
    (flush_text page_index s).current_text = [] ∨
      (flush_text page_index s).current_text = s.current_text := by
  unfold flush_text
  by_cases h : s.current_text = []
  · right; simp [h]
  · left; simp [h]

theorem flush_text_emitted (page_index : Nat) (s : AsmState) :
    (flush_text page_index s).emitted_tables = s.emitted_tables := by
  unfold flush_text
  by_cases h : s.current_text = [] <;> simp [h]

theorem flush_text_title (page_index : Nat) (s : AsmState) :
    (flush_text page_index s).title_state = s.title_state := by
  unfold flush_text
  by_cases h : s.current_text = [] <;> simp [h]

theorem flush_text_inv (page_index : Nat) (s : AsmState) (h : TableInv s) :
    TableInv (flush_text page_index s) := by
  obtain ⟨h1, h2⟩ := h
  refine ⟨?_, ?_⟩
  · rw [flush_text_emitted]; exact h1
  · rw [flush_text_blocks, flush_text_emitted, List.filter_append]
    by_cases hc : s.current_text = []
    · simp [hc, h2]
    · simp [hc, h2]

theorem foldl_preserves {σ α : Type} (P : σ → Prop) (f : σ → α → σ)
    (hf : ∀ s x, P s → P (f s x)) :
    ∀ (l : List α) (s : σ), P s → P (l.foldl f s) := by
  intro l
  induction l with
  | nil => intro s hs; exact hs
  | cons x xs ih => intro s hs; exact ih (f s x) (hf s x hs)

theorem tableInv_emit (s' : AsmState) (ti : Nat) (bid cp : String)
    (pg : Nat) (h : TableInv s') (hmem : ti ∉ s'.emitted_tables) :
    TableInv { s' with
      blocks := s'.blocks ++
        [⟨bid, s'.order_id, pg, "table", none, s'.title_state, some cp⟩],
      order_id := s'.order_id + 1,
      emitted_tables := s'.emitted_tables ++ [ti] } := by
  obtain ⟨h1, h2⟩ := h
  constructor
  · show (s'.emitted_tables ++ [ti]).Nodup
    rw [List.nodup_append]
    refine ⟨h1, List.nodup_singleton ti, ?_⟩
    intro a ha hb
    simp only [List.mem_singleton] at hb
    subst hb
    exact hmem ha
  · show ((s'.blocks ++
        [(⟨bid, s'.order_id, pg, "table", none, s'.title_state, some cp⟩ :
          Block)]).filter (fun b => b.type = "table")).length
      = (s'.emitted_tables ++ [ti]).length
    rw [List.filter_append, List.length_append, List.length_append, h2]
    simp

theorem stepRegion_inv (crop_dir : String) (pfs : Option ℚ)
    (page_index : Nat) (layout_regions table_regions : List LayoutRegion)
    (ordered_ocr : List OcrRegion) (s : AsmState) (idx : Nat)
    (ocr : OcrRegion) (h : TableInv s) :
    TableInv (stepRegion crop_dir pfs page_index layout_regions
      table_regions ordered_ocr s idx ocr) := by
  unfold stepRegion
  by_cases h1 : matchedLabel layout_regions ocr.bbox = some "footer"
      ∨ matchedLabel layout_regions ocr.bbox = some "number"
      ∨ matchedLabel layout_regions ocr.bbox = some "image"
      ∨ matchedLabel layout_regions ocr.bbox = some "aside_text"
  · simp only [h1, if_true]; exact h
  · simp only [h1, if_false]
    by_cases h2 : matchedLabel layout_regions ocr.bbox = some "paragraph_title"
        ∨ matchedLabel layout_regions ocr.bbox = some "figure_title"
    · simp only [h2, if_true]
      exact flush_text_inv page_index s h
    · simp only [h2, if_false]
      cases htbl : findTableIdx table_regions ocr.bbox with
      | none =>
        cases pfs with
        | none => exact h
        | some p =>
          cases hsz : ocr.size with
          | none => exact h
          | some size =>
            by_cases hp0 : p = 0
            · simp only [hp0, if_true]; exact h
            · simp only [hp0, if_false]
              by_cases hle : size ≤ p
              · simp only [hle, if_true]; exact h
              · simp only [hle, if_false]
                split
                · exact flush_text_inv page_index s h
                · exact h
      | some ti =>
        by_cases hmem : ti ∈ s.emitted_tables
        · simp only [hmem, if_true]; exact h
        · simp only [hmem, if_false]
          exact tableInv_emit (flush_text page_index s) ti _ _ _
            (flush_text_inv page_index s h)
            (by rw [flush_text_emitted]; exact hmem)

/-! Concrete geometry facts for the end-to-end examples (the `3/10`
ratio comparison lives in `ℚ`, so these are evaluated by `norm_num`). -/

theorem overlap_title_self :
    intersects ⟨0, 0, 100, 20⟩ ⟨0, 0, 100, 20⟩ (3/10) = true := by
  unfold intersects; norm_num

theorem overlap_body_title :
    intersects ⟨0, 25, 100, 40⟩ ⟨0, 0, 100, 20⟩ (3/10) = false := by
  unfold intersects; norm_num

theorem overlap_line1_table :
    intersects ⟨10, 10, 90, 20⟩ ⟨0, 0, 100, 100⟩ (3/10) = true := by
  unfold intersects; norm_num

theorem overlap_line2_table :
    intersects ⟨10, 30, 90, 40⟩ ⟨0, 0, 100, 100⟩ (3/10) = true := by
  unfold intersects; norm_num

theorem matchedLabel_title_example :
    matchedLabel [⟨"paragraph_title", ⟨0, 0, 100, 20⟩⟩] ⟨0, 0, 100, 20⟩
      = some "paragraph_title" := by
  simp [matchedLabel, List.find?, overlap_title_self]

theorem matchedLabel_body_example :
    matchedLabel [⟨"paragraph_title", ⟨0, 0, 100, 20⟩⟩] ⟨0, 25, 100, 40⟩
      = none := by
  simp [matchedLabel, List.find?, overlap_body_title]

/-- C6 (confirmed): on a `paragraph_title`/`figure_title` region the step
first flushes the pending prose as a closed text block tagged with the
*previous* `title_state`, and only afterwards replaces `title_state` with
this region's text; and the two-region end-to-end example produces exactly
one text block, titled "Introduction" with text "Body text here.". -/
theorem assemble_page_title_spec :
    (∀ (crop_dir : String) (pfs : Option ℚ) (page_index : Nat)
      (layout_regions table_regions : List LayoutRegion)
      (ordered_ocr : List OcrRegion) (s : AsmState) (idx : Nat)
      (ocr : OcrRegion),
      (matchedLabel layout_regions ocr.bbox = some "paragraph_title" ∨
        matchedLabel layout_regions ocr.bbox = some "figure_title") →
      stepRegion crop_dir pfs page_index layout_regions table_regions
          ordered_ocr s idx ocr
        = { flush_text page_index s with title_state := some ocr.text }
      ∧ (flush_text page_index s).blocks
        = s.blocks ++ (if s.current_text = [] then [] else
            [⟨"blk_" ++ toString (page_index + 1) ++ "_" ++ pad5 s.order_id,
              s.order_id, page_index + 1, "text",
              some (String.intercalate " " s.current_text), s.title_state,
              none⟩])
      ∧ (flush_text page_index s).title_state = s.title_state)
    ∧ assemble_page "crops" none 0
        [⟨⟨0, 0, 100, 20⟩, "Introduction", some 14⟩,
         ⟨⟨0, 25, 100, 40⟩, "Body text here.", some 10⟩]
        [0, 1]
        [⟨"paragraph_title", ⟨0, 0, 100, 20⟩⟩]
      = [⟨"blk_1_00000", 0, 1, "text", some "Body text here.",
          some "Introduction", none⟩] := by
  constructor
  · intro crop_dir pfs page_index layout_regions table_regions ordered_ocr
      s idx ocr hlabel
    have hnoise : ¬(matchedLabel layout_regions ocr.bbox = some "footer"
        ∨ matchedLabel layout_regions ocr.bbox = some "number"
        ∨ matchedLabel layout_regions ocr.bbox = some "image"
        ∨ matchedLabel layout_regions ocr.bbox = some "aside_text") := by
      rcases hlabel with h | h <;> rw [h] <;> simp
    refine ⟨?_, flush_text_blocks page_index s, flush_text_title page_index s⟩
    unfold stepRegion
    rw [if_neg hnoise, if_pos hlabel]
  · have hs1 : stepRegion "crops" none 0
        [⟨"paragraph_title", ⟨0, 0, 100, 20⟩⟩] []
        [⟨⟨0, 0, 100, 20⟩, "Introduction", some 14⟩,
         ⟨⟨0, 25, 100, 40⟩, "Body text here.", some 10⟩]
        ⟨[], 0, none, [], []⟩ 0 ⟨⟨0, 0, 100, 20⟩, "Introduction", some 14⟩
        = ⟨[], 0, some "Introduction", [], []⟩ := by
      simp [stepRegion, matchedLabel_title_example, flush_text]
    have hs2 : stepRegion "crops" none 0
        [⟨"paragraph_title", ⟨0, 0, 100, 20⟩⟩] []
        [⟨⟨0, 0, 100, 20⟩, "Introduction", some 14⟩,
         ⟨⟨0, 25, 100, 40⟩, "Body text here.", some 10⟩]
        ⟨[], 0, some "Introduction", [], []⟩ 1
        ⟨⟨0, 25, 100, 40⟩, "Body text here.", some 10⟩
        = ⟨[], 0, some "Introduction", ["Body text here."], []⟩ := by
      simp [stepRegion, matchedLabel_body_example, findTableIdx, flush_text]
    have hfil : List.filter (fun lr => decide (lr.label = "table"))
        [(⟨"paragraph_title", ⟨0, 0, 100, 20⟩⟩ : LayoutRegion)] = [] := rfl
    show (assemble_run "crops" none 0 _ _ _).blocks = _
    rw [assemble_run]
    simp only [List.map_cons, List.map_nil, List.getD, List.get?,
      List.enum, List.enumFrom, List.foldl, Option.getD_some, hfil]
    rw [hs1, hs2]
    rfl

/-- C6, witness: the step clause of `assemble_page_title_spec` applied to
a concrete title region over a state with pending prose. -/
theorem assemble_page_title_spec_witness :
    stepRegion "crops" none 0 [⟨"paragraph_title", ⟨0, 0, 100, 20⟩⟩] []
        [] ⟨[], 3, some "Old title", ["pending"], []⟩ 0
        ⟨⟨0, 0, 100, 20⟩, "New title", none⟩
      = { flush_text 0 ⟨[], 3, some "Old title", ["pending"], []⟩ with
          title_state := some "New title" }
    ∧ (flush_text 0 ⟨[], 3, some "Old title", ["pending"], []⟩).blocks
      = [] ++ (if (["pending"] : List String) = [] then [] else
          [⟨"blk_" ++ toString (0 + 1) ++ "_" ++ pad5 3, 3, 0 + 1, "text",
            some (String.intercalate " " ["pending"]), some "Old title",
            none⟩])
    ∧ (flush_text 0 ⟨[], 3, some "Old title", ["pending"], []⟩).title_state
      = some "Old title" :=
  assemble_page_title_spec.1 "crops" none 0
    [⟨"paragraph_title", ⟨0, 0, 100, 20⟩⟩] [] []
    ⟨[], 3, some "Old title", ["pending"], []⟩ 0
    ⟨⟨0, 0, 100, 20⟩, "New title", none⟩
    (Or.inl matchedLabel_title_example)

theorem matchedLabel_tbl1 :
    matchedLabel [⟨"table", ⟨0, 0, 100, 100⟩⟩] ⟨10, 10, 90, 20⟩
      = some "table" := by
  simp [matchedLabel, List.find?, overlap_line1_table]

theorem matchedLabel_tbl2 :
    matchedLabel [⟨"table", ⟨0, 0, 100, 100⟩⟩] ⟨10, 30, 90, 40⟩
      = some "table" := by
  simp [matchedLabel, List.find?, overlap_line2_table]

theorem findTableIdx_tbl1 :
    findTableIdx [⟨"table", ⟨0, 0, 100, 100⟩⟩] ⟨10, 10, 90, 20⟩ = some 0 := by
  simp [findTableIdx, List.findIdx?_cons, overlap_line1_table]

theorem findTableIdx_tbl2 :
    findTableIdx [⟨"table", ⟨0, 0, 100, 100⟩⟩] ⟨10, 30, 90, 40⟩ = some 0 := by
  simp [findTableIdx, List.findIdx?_cons, overlap_line2_table]

/-- C4 (confirmed): (1) a step on an OCR region that intersects some
table region never contributes that region's text to pending prose (the
accumulator is left unchanged or flushed empty) and any block it appends
is either a table block or the flush of previously pending prose; (2) on
every page the emitted table indices are pairwise distinct and there are
exactly as many table blocks as emitted indices (each table region yields
at most one table block); (3) a table region touched by two OCR lines
yields exactly one table block. -/
theorem assemble_page_table_spec :
    (∀ (crop_dir : String) (pfs : Option ℚ) (page_index : Nat)
      (layout_regions table_regions : List LayoutRegion)
      (ordered_ocr : List OcrRegion) (s : AsmState) (idx : Nat)
      (ocr : OcrRegion),
      (findTableIdx table_regions ocr.bbox).isSome = true →
      (((stepRegion crop_dir pfs page_index layout_regions table_regions
            ordered_ocr s idx ocr).current_text = s.current_text
        ∨ (stepRegion crop_dir pfs page_index layout_regions table_regions
            ordered_ocr s idx ocr).current_text = [])
      ∧ ∀ b ∈ (stepRegion crop_dir pfs page_index layout_regions
            table_regions ordered_ocr s idx ocr).blocks,
          b ∈ s.blocks ∨ b.type = "table"
            ∨ b.text = some (String.intercalate " " s.current_text)))
    ∧ (∀ (crop_dir : String) (pfs : Option ℚ) (page_index : Nat)
        (ocr_regions : List OcrRegion) (reading_order : List Nat)
        (layout_regions : List LayoutRegion),
        (assemble_run crop_dir pfs page_index ocr_regions reading_order
          layout_regions).emitted_tables.Nodup
        ∧ ((assemble_run crop_dir pfs page_index ocr_regions reading_order
            layout_regions).blocks.filter
              (fun b => b.type = "table")).length
          = (assemble_run crop_dir pfs page_index ocr_regions reading_order
              layout_regions).emitted_tables.length)
    ∧ assemble_page "crops" none 0
        [⟨⟨10, 10, 90, 20⟩, "row one", some 10⟩,
         ⟨⟨10, 30, 90, 40⟩, "row two", some 10⟩]
        [0, 1]
        [⟨"table", ⟨0, 0, 100, 100⟩⟩]
      = [⟨"tbl_1_00000", 0, 1, "table", none, none,
          some "crops/tbl_1_00000.png"⟩] := by
  refine ⟨?_, ?_, ?_⟩
  · intro crop_dir pfs page_index layout_regions table_regions ordered_ocr
      s idx ocr hsome
    obtain ⟨ti, hti⟩ := Option.isSome_iff_exists.mp hsome
    unfold stepRegion
    by_cases h1 : matchedLabel layout_regions ocr.bbox = some "footer"
        ∨ matchedLabel layout_regions ocr.bbox = some "number"
        ∨ matchedLabel layout_regions ocr.bbox = some "image"
        ∨ matchedLabel layout_regions ocr.bbox = some "aside_text"
    · rw [if_pos h1]
      exact ⟨Or.inl rfl, fun b hb => Or.inl hb⟩
    · rw [if_neg h1]
      by_cases h2 : matchedLabel layout_regions ocr.bbox = some "paragraph_title"
          ∨ matchedLabel layout_regions ocr.bbox = some "figure_title"
      · rw [if_pos h2]
        constructor
        · show (flush_text page_index s).current_text = s.current_text
              ∨ (flush_text page_index s).current_text = []
          rcases flush_text_current page_index s with hf | hf
          · exact Or.inr hf
          · exact Or.inl hf
        · intro b hb
          replace hb : b ∈ (flush_text page_index s).blocks := hb
          rw [flush_text_blocks] at hb
          rcases List.mem_append.mp hb with hbs | hbt
          · exact Or.inl hbs
          · by_cases hc : s.current_text = []
            · rw [if_pos hc] at hbt
              exact absurd hbt (List.not_mem_nil b)
            · rw [if_neg hc] at hbt
              simp only [List.mem_singleton] at hbt
              subst hbt
              exact Or.inr (Or.inr rfl)
      · rw [if_neg h2]
        simp only [hti]
        by_cases hmem : ti ∈ s.emitted_tables
        · rw [if_pos hmem]
          exact ⟨Or.inl rfl, fun b hb => Or.inl hb⟩
        · rw [if_neg hmem]
          constructor
          · show (flush_text page_index s).current_text = s.current_text
                ∨ (flush_text page_index s).current_text = []
            rcases flush_text_current page_index s with hf | hf
            · exact Or.inr hf
            · exact Or.inl hf
          · intro b hb
            replace hb : b ∈ (flush_text page_index s).blocks ++
                [(⟨"tbl_" ++ toString (page_index + 1) ++ "_"
                    ++ pad5 (flush_text page_index s).order_id,
                  (flush_text page_index s).order_id, page_index + 1,
                  "table", none, (flush_text page_index s).title_state,
                  some (crop_dir ++ "/"
                    ++ ("tbl_" ++ toString (page_index + 1) ++ "_"
                      ++ pad5 (flush_text page_index s).order_id)
                    ++ ".png")⟩ : Block)] := hb
            rcases List.mem_append.mp hb with hbs | hbt
            · rw [flush_text_blocks] at hbs
              rcases List.mem_append.mp hbs with hbs' | hbt'
              · exact Or.inl hbs'
              · by_cases hc : s.current_text = []
                · rw [if_pos hc] at hbt'
                  exact absurd hbt' (List.not_mem_nil b)
                · rw [if_neg hc] at hbt'
                  simp only [List.mem_singleton] at hbt'
                  subst hbt'
                  exact Or.inr (Or.inr rfl)
            · simp only [List.mem_singleton] at hbt
              subst hbt
              exact Or.inr (Or.inl rfl)
  · intro crop_dir pfs page_index ocr_regions reading_order layout_regions
    suffices h : TableInv (assemble_run crop_dir pfs page_index ocr_regions
        reading_order layout_regions) from ⟨h.1, h.2⟩
    unfold assemble_run
    exact flush_text_inv _ _
      (foldl_preserves TableInv _
        (fun s p h => stepRegion_inv _ _ _ _ _ _ s p.1 p.2 h) _ _
        ⟨List.nodup_nil, rfl⟩)
  · have hs1 : stepRegion "crops" none 0 [⟨"table", ⟨0, 0, 100, 100⟩⟩]
        [⟨"table", ⟨0, 0, 100, 100⟩⟩]
        [⟨⟨10, 10, 90, 20⟩, "row one", some 10⟩,
         ⟨⟨10, 30, 90, 40⟩, "row two", some 10⟩]
        ⟨[], 0, none, [], []⟩ 0 ⟨⟨10, 10, 90, 20⟩, "row one", some 10⟩
        = ⟨[⟨"tbl_1_00000", 0, 1, "table", none, none,
            some "crops/tbl_1_00000.png"⟩], 1, none, [], [0]⟩ := by
      simp only [stepRegion, matchedLabel_tbl1, findTableIdx_tbl1]
      rfl
    have hs2 : stepRegion "crops" none 0 [⟨"table", ⟨0, 0, 100, 100⟩⟩]
        [⟨"table", ⟨0, 0, 100, 100⟩⟩]
        [⟨⟨10, 10, 90, 20⟩, "row one", some 10⟩,
         ⟨⟨10, 30, 90, 40⟩, "row two", some 10⟩]
        ⟨[⟨"tbl_1_00000", 0, 1, "table", none, none,
            some "crops/tbl_1_00000.png"⟩], 1, none, [], [0]⟩ 1
        ⟨⟨10, 30, 90, 40⟩, "row two", some 10⟩
        = ⟨[⟨"tbl_1_00000", 0, 1, "table", none, none,
            some "crops/tbl_1_00000.png"⟩], 1, none, [], [0]⟩ := by
      simp only [stepRegion, matchedLabel_tbl2, findTableIdx_tbl2]
      rfl
    have hfil : List.filter (fun lr => decide (lr.label = "table"))
        [(⟨"table", ⟨0, 0, 100, 100⟩⟩ : LayoutRegion)]
        = [⟨"table", ⟨0, 0, 100, 100⟩⟩] := rfl
    show (assemble_run "crops" none 0 _ _ _).blocks = _
    rw [assemble_run]
    simp only [List.map_cons, List.map_nil, List.getD, List.get?,
      List.enum, List.enumFrom, List.foldl, Option.getD_some, hfil]
    rw [hs1, hs2]
    rfl

/-- C4, witness: the step clause of `assemble_page_table_spec` applied to
the first table-touching line over a state with pending prose. -/
theorem assemble_page_table_spec_witness :
    ((stepRegion "crops" none 0 [⟨"table", ⟨0, 0, 100, 100⟩⟩]
        [⟨"table", ⟨0, 0, 100, 100⟩⟩] []
        ⟨[], 0, none, ["pending"], []⟩ 0
        ⟨⟨10, 10, 90, 20⟩, "row one", some 10⟩).current_text = ["pending"]
      ∨ (stepRegion "crops" none 0 [⟨"table", ⟨0, 0, 100, 100⟩⟩]
        [⟨"table", ⟨0, 0, 100, 100⟩⟩] []
        ⟨[], 0, none, ["pending"], []⟩ 0
        ⟨⟨10, 10, 90, 20⟩, "row one", some 10⟩).current_text = [])
    ∧ ∀ b ∈ (stepRegion "crops" none 0 [⟨"table", ⟨0, 0, 100, 100⟩⟩]
        [⟨"table", ⟨0, 0, 100, 100⟩⟩] []
        ⟨[], 0, none, ["pending"], []⟩ 0
        ⟨⟨10, 10, 90, 20⟩, "row one", some 10⟩).blocks,
        b ∈ ([] : List Block) ∨ b.type = "table"
          ∨ b.text = some (String.intercalate " " ["pending"]) :=
  assemble_page_table_spec.1 "crops" none 0 [⟨"table", ⟨0, 0, 100, 100⟩⟩]
    [⟨"table", ⟨0, 0, 100, 100⟩⟩] [] ⟨[], 0, none, ["pending"], []⟩ 0
    ⟨⟨10, 10, 90, 20⟩, "row one", some 10⟩
    (by rw [findTableIdx_tbl1]; rfl)

/-! ## `src/utils/normalize.py`

Regexes are unfolded into character scans.  `re.sub` scans left to right
over the original string, replacing non-overlapping matches; the
word-boundary assertion `\b` holds between a word character
(`[A-Za-z0-9_]`, ASCII fragment of `\w`) and a non-word character or
string edge. -/

/-- `\b` before a pattern starting with a word character: the previous
original character (if any) must be non-word. -/
def boundaryBefore (prev : Option Char) : Bool :=
  match prev with
  | none => true
  | some c => !isWordChar c

/-- `\b` after a pattern ending in a word character: the next character
must be absent or non-word. -/
def boundaryAfterWord (rest : List Char) : Bool :=
  match rest with
  | [] => true
  | c :: _ => !isWordChar c

/-- `\b` after a pattern ending in `.` (non-word): the next character must
be a word character. -/
def boundaryAfterDot (rest : List Char) : Bool :=
  match rest with
  | [] => false
  | c :: _ => isWordChar c

/-- `re.sub(r"\bchapter\b", "ch", text)`; `prev` is the original character
before the scan position. -/
def subChapter : Option Char → List Char → List Char
  | _, [] => []
  | prev, 'c' :: 'h' :: 'a' :: 'p' :: 't' :: 'e' :: 'r' :: rest =>
      if boundaryBefore prev && boundaryAfterWord rest then
        'c' :: 'h' :: subChapter (some 'r') rest
      else
        'c' :: subChapter (some 'c')
          ('h' :: 'a' :: 'p' :: 't' :: 'e' :: 'r' :: rest)
  | _, c :: cs => c :: subChapter (some c) cs

/-- `re.sub(r"\bch\.\b", "ch", text)`. -/
def subChDot : Option Char → List Char → List Char
  | _, [] => []
  | prev, 'c' :: 'h' :: '.' :: rest =>
      if boundaryBefore prev && boundaryAfterDot rest then
        'c' :: 'h' :: subChDot (some '.') rest
      else
        'c' :: subChDot (some 'c') ('h' :: '.' :: rest)
  | _, c :: cs => c :: subChDot (some c) cs

/-- `re.sub(r"\s+", " ", text)`: collapse every whitespace run to a single
space (`inRun` records whether the scan is inside a run already
replaced). -/
def wsCollapseAux (inRun : Bool) : List Char → List Char
  | [] => []
  | c :: cs =>
    if isPySpace c then
      if inRun then wsCollapseAux true cs else ' ' :: wsCollapseAux true cs
    else c :: wsCollapseAux false cs

/-- `utils.normalize.normalize_title`. -/
def normalize_title (s : String) : String :=
  let t := s.toList.map Char.toLower
  let t := subChapter none t
  let t := subChDot none t
  let t := t.filter (fun c => isWordChar c || isPySpace c)
  let t := wsCollapseAux false t
  (pyStrip t).asString

/-- C8 (confirmed): `normalize_title` identifies the chapter-heading
synonyms `"Chapter 3: The Great War"` and `"Ch. 3 The Great War"` (both
normalize to `"ch 3 the great war"`). -/
theorem normalize_title_chapter_synonyms :
    normalize_title "Chapter 3: The Great War"
      = normalize_title "Ch. 3 The Great War" := by
  rfl

/-! ### `normalize_text` and its helpers -/

/-- `CONTROL_CHARS_RE = [\x00-\x08\x0B\x0C\x0E-\x1F\x7F]`. -/
def isControlChar (c : Char) : Bool :=
  c.toNat ≤ 0x08 || c.toNat = 0x0b || c.toNat = 0x0c
    || (0x0e ≤ c.toNat && c.toNat ≤ 0x1f) || c.toNat = 0x7f

/-- `str.replace` for a single-character needle. -/
def replaceChar (src : Char) (tgt : List Char) (s : List Char) : List Char :=
  s.foldr (fun c acc => if c = src then tgt ++ acc else c :: acc) []

/-- `normalize_unicode`.  `unicodedata.normalize("NFKC", ·)` is modelled as
the identity — exact on ASCII text, and no claim here depends on the
value of normalized text — followed by the explicit replacement table. -/
def normalize_unicode (s : List Char) : List Char :=
  let s := replaceChar '“' ['"'] s
  let s := replaceChar '”' ['"'] s
  let s := replaceChar '‘' ['\''] s
  let s := replaceChar '’' ['\''] s
  let s := replaceChar '´' ['\''] s
  let s := replaceChar '–' ['-'] s
  let s := replaceChar '—' ['-'] s
  replaceChar '…' ['.', '.', '.'] s

/-- `BULLET_RE = [•◦∙·‣▪▫–—]`. -/
def isBullet (c : Char) : Bool :=
  c = '•' || c = '◦' || c = '∙' || c = '·' || c = '‣' || c = '▪'
    || c = '▫' || c = '–' || c = '—'

def isLowerAlpha (c : Char) : Bool := 'a' ≤ c && c ≤ 'z'

/-- One pass of `re.sub(r"(\w+)-\s+([a-z])", r"\1\2", text)`: at each scan
position, a maximal word run followed by `-`, at least one whitespace
character and a lowercase letter is contracted; the scan resumes after
the match.  `fuel` bounds the recursion; every call strictly shortens the
input, so `fuel = s.length` never runs out before the input does. -/
def hyphenFuel : Nat → List Char → List Char
  | 0, s => s
  | _ + 1, [] => []
  | fuel + 1, c :: cs =>
    if isWordChar c then
      match (c :: cs).takeWhile isWordChar, (c :: cs).dropWhile isWordChar with
      | run, '-' :: rest2 =>
        let sp := rest2.takeWhile isPySpace
        let rest3 := rest2.dropWhile isPySpace
        match rest3 with
        | a :: rest4 =>
          if !sp.isEmpty && isLowerAlpha a then
            run ++ a :: hyphenFuel fuel rest4
          else c :: hyphenFuel fuel cs
        | [] => c :: hyphenFuel fuel cs
      | _, _ => c :: hyphenFuel fuel cs
    else c :: hyphenFuel fuel cs

def hyphenSubOnce (s : List Char) : List Char := hyphenFuel s.length s

/-- The `while True` fixpoint loop of `fix_hyphenated_linebreaks`.  Every
changed iteration removes at least two characters, so `t.length`
iterations reach the fixpoint — the same argument under which the Python
loop terminates. -/
def fixHyphenLoop : Nat → List Char → List Char
  | 0, t => t
  | n + 1, t =>
    let nt := hyphenSubOnce t
    if nt = t then t else fixHyphenLoop n nt

def fix_hyphenated_linebreaks (t : List Char) : List Char :=
  fixHyphenLoop t.length t

def isSpaceTab (c : Char) : Bool := c = ' ' || c = '\t'

/-- `MULTI_SPACE_RE.sub(" ", ·)`: runs of two or more spaces/tabs become a
single space (a lone tab survives).  Fuel as in `hyphenFuel`. -/
def collapseSpaceTabFuel : Nat → List Char → List Char
  | 0, s => s
  | _ + 1, [] => []
  | fuel + 1, c :: cs =>
    if isSpaceTab c then
      match cs with
      | d :: _ =>
        if isSpaceTab d then
          ' ' :: collapseSpaceTabFuel fuel (cs.dropWhile isSpaceTab)
        else c :: collapseSpaceTabFuel fuel cs
      | [] => [c]
    else c :: collapseSpaceTabFuel fuel cs

/-- `MULTI_NEWLINE_RE.sub("\n\n", ·)`: runs of three or more newlines
become two. -/
def collapseNewlinesFuel : Nat → List Char → List Char
  | 0, s => s
  | _ + 1, [] => []
  | fuel + 1, c :: cs =>
    if c = '\n' then
      if ((c :: cs).takeWhile (fun x => x = '\n')).length ≥ 3 then
        '\n' :: '\n' ::
          collapseNewlinesFuel fuel ((c :: cs).dropWhile (fun x => x = '\n'))
      else c :: collapseNewlinesFuel fuel cs
    else c :: collapseNewlinesFuel fuel cs

def normalize_whitespace (t : List Char) : List Char :=
  pyStrip (collapseNewlinesFuel t.length (collapseSpaceTabFuel t.length t))

/-- `utils.normalize.normalize_text` (`if not text: return text` keeps the
empty string as is). -/
def normalize_text (text : String) : String :=
  if text = "" then text
  else
    let t := text.toList.filter (fun c => !isControlChar c)
    let t := normalize_unicode t
    let t := t.map (fun c => if isBullet c then '-' else c)
    let t := fix_hyphenated_linebreaks t
    let t := normalize_whitespace t
    t.asString

/-! ## `src/blocks/serialize.py` -/

/-- `flatten_toc`: `(title, level)` pairs in document order.  The `path`
parameter of the Python function threads through the recursion but never
reaches the output, so it is omitted. -/
def flatten_toc : List Node → List (String × Int)
  | [] => []
  | .mk t _ _ lvl cs :: rest => (t, lvl) :: (flatten_toc cs ++ flatten_toc rest)

/-- `align_blocks_to_toc(blocks, toc)`.  The Python loop does
`block.get("title")` on each `Block`, but `Block` is a dataclass with no
`.get` method, so the very first iteration raises
`AttributeError: 'Block' object has no attribute 'get'`; with no blocks
the loop body never runs and the empty mapping is returned. -/
def align_blocks_to_toc (blocks : List Block) (toc : List Node) :
    Except PyErr (List (String × List String)) :=
  let _toc_entries := flatten_toc toc
  match blocks with
  | [] => .ok []
  | _ :: _ => .error (.attributeError "get")

/-- The JSON-serializable dict built by `block_to_dict` (`title` is
present only when truthy; `text` only for text blocks; `image` only for
table blocks). -/
structure BlockData where
  block_id : String
  page : Nat
  type : String
  section_path : List String
  title : Option String
  text : Option String
  image : Option String
deriving DecidableEq, Repr

def block_to_dict (block : Block) (section_path : Option (List String)) :
    BlockData :=
  { block_id := block.block_id
    page := block.page
    type := block.type
    section_path := section_path.getD []
    title := if block.title ≠ none ∧ block.title ≠ some "" then block.title
      else none
    text := if block.type = "text" then
        some (normalize_text (block.text.getD "")) else none
    image := if block.type = "table" then block.image_crop else none }

/-- `serialize_blocks(blocks, out_path, toc)`.  `out_path.mkdir` is a
filesystem effect with no data flow and is not modelled.  After the
classification loop the function reads the never-defined name `out_dir`
(instead of `out_path`), so the write step always raises `NameError` —
unless a supplied TOC and a non-empty block list already made
`align_blocks_to_toc` raise `AttributeError` first.  No output file is
ever written. -/
def serialize_blocks (blocks : List Block) (toc : Option (List Node)) :
    Except PyErr Unit :=
  match toc with
  | some t =>
    match align_blocks_to_toc blocks t with
    | .error e => .error e
    | .ok section_paths =>
      let datas := blocks.map (fun b =>
        block_to_dict b (section_paths.lookup b.block_id))
      let _text_blocks := datas.filter (fun d => d.type = "text")
      let _table_blocks := datas.filter (fun d => d.type = "table")
      .error (.nameError "out_dir")
  | none =>
    let datas := blocks.map (fun b => block_to_dict b none)
    let _text_blocks := datas.filter (fun d => d.type = "text")
    let _table_blocks := datas.filter (fun d => d.type = "table")
    .error (.nameError "out_dir")

/-- C9, counterexample.  With a TOC supplied and a titled block present,
`serialize_blocks` raises `AttributeError` (from `Block.get` in
`align_blocks_to_toc`), not the `NameError` on `re` the claim predicts —
the `re` reference in `serialize.normalize_title` is never reached. -/
theorem serialize_blocks_attribute_error :
    serialize_blocks
        [⟨"blk_1_00000", 0, 1, "text", some "body", some "Title", none⟩]
        (some [])
      = .error (.attributeError "get")
    ∧ (Except.error (PyErr.attributeError "get") : Except PyErr Unit)
      ≠ .error (.nameError "re") := by
  exact ⟨rfl, by decide⟩

/-- C9 (amended): `serialize_blocks` raises on every input and never
writes its output files — `AttributeError` (from `Block.get` in
`align_blocks_to_toc`) when a TOC is supplied and the block list is
non-empty, and otherwise `NameError` on the undefined `out_dir` at the
write step. -/
theorem serialize_blocks_always_raises (blocks : List Block)
    (toc : Option (List Node)) :
    serialize_blocks blocks toc
      = .error (match toc, blocks with
        | some _, _ :: _ => .attributeError "get"
        | _, _ => .nameError "out_dir") := by
  cases toc with
  | none => cases blocks <;> rfl
  | some t => cases blocks <;> rfl

end DndRulebook
